import Mathlib

/-!
Shallow embedding of the computational core of `src/shor2.py`, a Streamlit
demo that builds a toy RSA keypair from the fixed primes 17 and 23, encrypts
a random session key, and on a button press "recovers" it by reusing the
known factors.  The chart/markdown calls of the script perform no
computation and are not modelled; the embedded part is lines 23-30 (setup)
and lines 137-145 (the attack handler).
-/

namespace Shor2

/-- Models Python's built-in three-argument power `pow(b, k, n)` as called at
lines 30 and 140 of `src/shor2.py`: its value is `b ^ k % n` (CPython
computes it by binary exponentiation; `binPowMod` below models that
algorithm and is proved to agree). -/
def pyPow (b k n : Nat) : Nat := b ^ k % n

/-- Models Python's built-in `pow(a, -1, m)` (lines 27 and 139 of
`src/shor2.py`): when `a` is invertible modulo `m`, Python returns the unique
inverse in `[0, m)`.  This definition picks the least `x < m` with
`a * x % m = 1` (there is at most one such `x`) and returns `0` when none
exists; the error Python raises in that case is modelled by `keySetup`. -/
def modInv (a m : Nat) : Nat :=
  (((List.range m).find? fun x => a * x % m == 1).getD 0)

/-- The exception CPython raises out of `pow(a, -1, m)` when no inverse
exists: a built-in `ValueError` ("base is not invertible for the given
modulus").  No other error vocabulary appears in `src/shor2.py`. -/
inductive PyError where
  | valueError
deriving DecidableEq

/-- Embeds line 27 of `src/shor2.py`, `d = pow(e, -1, phi)`, together with the
behaviour of the builtin: CPython returns the inverse exactly when
`gcd(e, phi) = 1` and otherwise raises `ValueError`.  The script installs no
handler, so the exception propagates; the source performs no coprimality
check of its own. -/
def keySetup (e phi : Nat) : Except PyError Nat :=
  if Nat.gcd e phi = 1 then Except.ok (modInv e phi)
  else Except.error PyError.valueError

/-- Modelled from the spec: the error taxonomy of its error-handling section,
absent from `src/shor2.py` — `InvalidKeyParameters` for a non-coprime
`(e, phi)` pair, with `NoInverseExists` as its proximate cause. -/
inductive SpecKeyError where
  | invalidKeyParameters
  | noInverseExists
deriving DecidableEq

/-- Modelled from the spec: a key setup that explicitly checks coprimality
and fails with `InvalidKeyParameters` when `gcd(e, phi) ≠ 1`. -/
def keySetupSpec (e phi : Nat) : Except SpecKeyError Nat :=
  if Nat.gcd e phi = 1 then Except.ok (modInv e phi)
  else Except.error SpecKeyError.invalidKeyParameters

/-- Display name of the source-side error, used to compare the source's
failure with the spec's taxonomy. -/
def errName : PyError → String
  | PyError.valueError => "ValueError"

/-- Display name of the spec-side errors. -/
def specErrName : SpecKeyError → String
  | SpecKeyError.invalidKeyParameters => "InvalidKeyParameters"
  | SpecKeyError.noInverseExists => "NoInverseExists"

/-- Line 23 of `src/shor2.py`: `p, q = 17, 23`. -/
def p : Nat := 17

/-- Line 23 of `src/shor2.py`: `p, q = 17, 23`. -/
def q : Nat := 23

/-- Line 24: `n = p * q`. -/
def n : Nat := p * q

/-- Line 25: `phi = (p - 1) * (q - 1)`. -/
def phi : Nat := (p - 1) * (q - 1)

/-- Line 26: `e = 3`. -/
def e : Nat := 3

/-- Line 27: `d = pow(e, -1, phi)`; the call succeeds since
`gcd(3, 352) = 1`, so its value is the modular inverse. -/
def d : Nat := modInv e phi

/-- Lower bound of line 29, `session_key = random.randint(20, 80)`
(inclusive). -/
def sessionKeyMin : Nat := 20

/-- Upper bound of line 29, `session_key = random.randint(20, 80)`
(inclusive). -/
def sessionKeyMax : Nat := 80

/-- Line 30: `encrypted_key = pow(session_key, e, n)`, as a function of the
randomly drawn session key. -/
def encrypted_key (session_key : Nat) : Nat := pyPow session_key e n

/-- Line 138: `p_found, q_found = p, q` (first component). -/
def p_found : Nat := p

/-- Line 138: `p_found, q_found = p, q` (second component). -/
def q_found : Nat := q

/-- Line 139: `d_eve = pow(e, -1, (p_found - 1) * (q_found - 1))`. -/
def d_eve : Nat := modInv e ((p_found - 1) * (q_found - 1))

/-- Line 140: `recovered_key = pow(encrypted_key, d_eve, n)`, as a function
of the session key that determined `encrypted_key`. -/
def recovered_key (session_key : Nat) : Nat :=
  pyPow (encrypted_key session_key) d_eve n

/-- The eight module-level values of lines 23-30 of `src/shor2.py` that the
attack handler can read. -/
structure DemoState where
  p : Nat
  q : Nat
  n : Nat
  phi : Nat
  e : Nat
  d : Nat
  session_key : Nat
  encrypted_key : Nat
deriving DecidableEq

/-- Lines 23-30 run once at script start: all eight values are derived from
the two fixed primes and the one random draw `session_key`. -/
def initState (session_key : Nat) : DemoState :=
  let p := 17
  let q := 23
  let n := p * q
  let phi := (p - 1) * (q - 1)
  let e := 3
  let d := modInv e phi
  let encrypted_key := pyPow session_key e n
  ⟨p, q, n, phi, e, d, session_key, encrypted_key⟩

/-- Lines 137-145, the body of the `st.button` branch: it binds the fresh
names `p_found`, `q_found`, `d_eve`, `recovered_key` and assigns none of the
eight values of `DemoState`, so the state it returns is exactly the state it
read. -/
def runShorAttack (s : DemoState) : Nat × DemoState :=
  let pf := s.p
  let qf := s.q
  let de := modInv s.e ((pf - 1) * (qf - 1))
  let recovered := pyPow s.encrypted_key de s.n
  (recovered, s)

/-- Naive modular exponentiation: multiply by `b` `k` times, reducing mod `n`
at each step — the spec's cross-check reference for `pow`. -/
def naivePowMod (b n : Nat) : Nat → Nat
  | 0 => 1 % n
  | k + 1 => naivePowMod b n k * b % n

/-- Binary (square-and-multiply) modular exponentiation, the algorithm the
spec prescribes and CPython uses for three-argument `pow`, every
intermediate product reduced mod `n`. -/
def binPowMod (b k n : Nat) : Nat :=
  if h : k = 0 then 1 % n
  else if k % 2 = 0 then binPowMod b (k / 2) n * binPowMod b (k / 2) n % n
  else binPowMod b (k / 2) n * binPowMod b (k / 2) n % n * b % n
termination_by k
decreasing_by all_goals omega

theorem naivePowMod_eq (b n : Nat) : ∀ k, naivePowMod b n k = b ^ k % n
  | 0 => rfl
  | k + 1 => by
    have ih := naivePowMod_eq b n k
    calc naivePowMod b n (k + 1) = naivePowMod b n k * b % n := rfl
      _ = b ^ k % n * b % n := by rw [ih]
      _ = b ^ k * b % n := Nat.mod_mul_mod
      _ = b ^ (k + 1) % n := by rw [pow_succ]

theorem binPowMod_eq (b n : Nat) : ∀ k, binPowMod b k n = b ^ k % n := by
  intro k
  induction k using Nat.strong_induction_on with
  | _ k ih =>
    rw [binPowMod]
    by_cases h0 : k = 0
    · simp [h0]
    · rw [dif_neg h0]
      have ih2 := ih (k / 2) (Nat.div_lt_self (Nat.pos_of_ne_zero h0) (by decide))
      have hdm := Nat.div_add_mod k 2
      by_cases h2 : k % 2 = 0
      · rw [if_pos h2, ih2, ← Nat.mul_mod, ← pow_add]
        have hk : k / 2 + k / 2 = k := by omega
        rw [hk]
      · rw [if_neg h2, ih2, ← Nat.mul_mod, Nat.mod_mul_mod, ← pow_add, ← pow_succ]
        have hk : k / 2 + k / 2 + 1 = k := by omega
        rw [hk]

theorem modInv_spec {a m : Nat} (hm : 1 < m) (h : Nat.gcd a m = 1) :
    a * modInv a m % m = 1 := by
  have hm0 : 0 < m := Nat.lt_of_lt_of_le Nat.zero_lt_one (Nat.le_of_lt hm)
  obtain ⟨x, hx⟩ := Nat.exists_mul_emod_eq_one_of_coprime h hm
  have hy : a * (x % m) % m = 1 := by
    rw [Nat.mul_comm a (x % m), Nat.mod_mul_mod, Nat.mul_comm x a]
    exact hx
  cases hfind : (List.range m).find? (fun x => a * x % m == 1) with
  | none =>
    exfalso
    have hnone := List.find?_eq_none.mp hfind (x % m)
      (List.mem_range.mpr (Nat.mod_lt x hm0))
    exact hnone (by simpa using hy)
  | some z =>
    have hz : a * z % m = 1 := by simpa using List.find?_some hfind
    simpa [modInv, hfind] using hz

theorem pow_one_add_mul_modEq (p m t : Nat) (hp : Nat.Prime p) :
    m ^ (1 + t * (p - 1)) ≡ m [MOD p] := by
  by_cases hpm : p ∣ m
  · have h0 : m ≡ 0 [MOD p] := (Nat.modEq_zero_iff_dvd).mpr hpm
    have h1 := h0.pow (1 + t * (p - 1))
    have hne : 1 + t * (p - 1) ≠ 0 := by positivity
    rw [zero_pow hne] at h1
    exact h1.trans h0.symm
  · have hco : Nat.Coprime m p := ((hp.coprime_iff_not_dvd).mpr hpm).symm
    have hfermat := Nat.ModEq.pow_totient hco
    rw [Nat.totient_prime hp] at hfermat
    have h2 : m ^ (1 + t * (p - 1)) = m * (m ^ (p - 1)) ^ t := by
      rw [pow_add, pow_one, mul_comm t (p - 1), pow_mul]
    have h3 : (m ^ (p - 1)) ^ t ≡ 1 [MOD p] := by
      simpa using hfermat.pow t
    have h4 : m * (m ^ (p - 1)) ^ t ≡ m * 1 [MOD p] :=
      (Nat.ModEq.refl m).mul h3
    rw [h2]
    simpa using h4

end Shor2

deriving instance DecidableEq for Except

namespace Shor2

/-- C1: for every valid parameter triple (p, q, e) with p, q distinct primes
and gcd(e, (p-1)(q-1)) = 1, and for every message m with 0 ≤ m < n = p*q,
decrypting the encryption of m recovers m exactly:
`pow(pow(m, e, n), d, n) == m`, where d is the modular inverse of e mod phi
as computed by `pow(e, -1, phi)`. -/
theorem rsa_round_trip (p q e m : Nat) (hp : Nat.Prime p) (hq : Nat.Prime q)
    (hpq : p ≠ q) (he : Nat.gcd e ((p - 1) * (q - 1)) = 1) (hm : m < p * q) :
    pyPow (pyPow m e (p * q)) (modInv e ((p - 1) * (q - 1))) (p * q) = m := by
  have hp2 : 2 ≤ p := hp.two_le
  have hq2 : 2 ≤ q := hq.two_le
  have hbounds : 1 ≤ p - 1 ∧ 1 ≤ q - 1 ∧ (2 ≤ p - 1 ∨ 2 ≤ q - 1) := by omega
  have hphi : 1 < (p - 1) * (q - 1) := by
    rcases hbounds with ⟨h1, h2, h3 | h3⟩
    · calc (1 : Nat) < 2 * 1 := by omega
        _ ≤ (p - 1) * (q - 1) := Nat.mul_le_mul h3 h2
    · calc (1 : Nat) < 1 * 2 := by omega
        _ ≤ (p - 1) * (q - 1) := Nat.mul_le_mul h1 h3
  set dd := modInv e ((p - 1) * (q - 1)) with hdd
  have hd : e * dd % ((p - 1) * (q - 1)) = 1 := modInv_spec hphi he
  have hdm := Nat.div_add_mod (e * dd) ((p - 1) * (q - 1))
  rw [hd] at hdm
  obtain ⟨k, hk⟩ : ∃ k, e * dd = 1 + k * ((p - 1) * (q - 1)) := by
    refine ⟨e * dd / ((p - 1) * (q - 1)), ?_⟩
    conv_lhs => rw [← hdm]
    ring
  have hmp : m ^ (e * dd) ≡ m [MOD p] := by
    have h := pow_one_add_mul_modEq p m (k * (q - 1)) hp
    have heq : 1 + k * (q - 1) * (p - 1) = e * dd := by rw [hk]; ring
    rwa [heq] at h
  have hmq : m ^ (e * dd) ≡ m [MOD q] := by
    have h := pow_one_add_mul_modEq q m (k * (p - 1)) hq
    have heq : 1 + k * (p - 1) * (q - 1) = e * dd := by rw [hk]; ring
    rwa [heq] at h
  have hcop : Nat.Coprime p q := (Nat.coprime_primes hp hq).mpr hpq
  have hmod : m ^ (e * dd) ≡ m [MOD p * q] :=
    (Nat.modEq_and_modEq_iff_modEq_mul hcop).mp ⟨hmp, hmq⟩
  have hfinal : m ^ (e * dd) % (p * q) = m % (p * q) := hmod
  rw [Nat.mod_eq_of_lt hm] at hfinal
  show (m ^ e % (p * q)) ^ dd % (p * q) = m
  rw [← Nat.pow_mod, ← pow_mul]
  exact hfinal

/-- Witness for C1 at the program's own parameters p = 17, q = 23, e = 3 and
message 50. -/
theorem rsa_round_trip_witness :
    pyPow (pyPow 50 3 (17 * 23)) (modInv 3 ((17 - 1) * (23 - 1))) (17 * 23) = 50 :=
  rsa_round_trip 17 23 3 50 (by decide) (by decide) (by decide) (by decide)
    (by decide)

/-- C2 as stated fails at e = 2, phi = 352: the source's setup (line 27)
raises the Python built-in ValueError out of `pow(2, -1, 352)`, not the
InvalidKeyParameters error of the explicit check the claim describes; the
source contains no such check and no such error type. -/
theorem keySetup_error_not_invalidKeyParameters :
    keySetup 2 352 = Except.error PyError.valueError ∧
    keySetupSpec 2 352 = Except.error SpecKeyError.invalidKeyParameters ∧
    errName PyError.valueError ≠ specErrName SpecKeyError.invalidKeyParameters :=
  ⟨by decide, by decide, by decide⟩

/-- C2 (amended): for every (e, phi) with gcd(e, phi) ≠ 1, the key setup of
line 27 fails and never returns a value d, but the failure is the Python
built-in ValueError raised inside `pow(e, -1, phi)` and propagated to the
caller unchanged (the script installs no handler); there is no explicit
coprimality check in the setup and no InvalidKeyParameters or
NoInverseExists error in the source. -/
theorem keySetup_fails_on_non_coprime (e phi : Nat) (h : Nat.gcd e phi ≠ 1) :
    keySetup e phi = Except.error PyError.valueError := by
  simp [keySetup, h]

/-- Witness for the amended C2 at the spec's own invalid example
e = 2, phi = 352. -/
theorem keySetup_fails_on_non_coprime_witness :
    keySetup 2 352 = Except.error PyError.valueError :=
  keySetup_fails_on_non_coprime 2 352 (by decide)

/-- C3: with p = 17, q = 23, e = 3 the setup computes n = 391, phi = 352 and
d = 235 with 3 * 235 mod 352 = 1; for session_key = 50 the cipher is
50^3 mod 391 and raising it to 235 mod 391 yields exactly 50. -/
theorem concrete_scenario :
    n = 391 ∧ phi = 352 ∧ d = 235 ∧ e * d % phi = 1 ∧
    encrypted_key 50 = 50 ^ 3 % 391 ∧
    pyPow (encrypted_key 50) 235 391 = 50 :=
  ⟨rfl, rfl, by decide, by decide, rfl, by decide⟩

/-- C4: whenever the setup succeeds, i.e. gcd(e, phi) = 1 (with phi > 1 as
for every phi = (p-1)(q-1) built from distinct primes), it returns the value
`modInv e phi` and that value d satisfies (e * d) mod phi = 1. -/
theorem keySetup_postcondition (e phi : Nat) (hphi : 1 < phi)
    (h : Nat.gcd e phi = 1) :
    keySetup e phi = Except.ok (modInv e phi) ∧
    e * modInv e phi % phi = 1 :=
  ⟨by simp [keySetup, h], modInv_spec hphi h⟩

/-- Witness for C4 at the program's own parameters e = 3, phi = 352. -/
theorem keySetup_postcondition_witness :
    keySetup 3 352 = Except.ok (modInv 3 352) ∧
    3 * modInv 3 352 % 352 = 1 :=
  keySetup_postcondition 3 352 (by decide) (by decide)

/-- C5: the attack performs no factorization — it copies the already-known
primes (line 138), so the exponent d_eve of line 139 equals the setup's
private exponent d of line 27, and the recovery of line 140 is exactly the
ordinary RSA decryption of the stored cipher with d. -/
theorem attack_reuses_known_factors :
    p_found = p ∧ q_found = q ∧ d_eve = d ∧
    ∀ session_key : Nat,
      recovered_key session_key = pyPow (encrypted_key session_key) d n :=
  ⟨rfl, rfl, rfl, fun _ => rfl⟩

/-- C6: the modular exponentiation used for encryption and decryption —
Python's `pow`, modelled by `pyPow`, computed by the square-and-multiply
routine `binPowMod` — returns the same result as naive repeated
multiplication by b with reduction mod n at each step, for every base b,
exponent k and modulus n (in particular for b < n as the claim states). -/
theorem powMod_cross_check (b k n : Nat) :
    pyPow b k n = naivePowMod b n k ∧ binPowMod b k n = naivePowMod b n k := by
  constructor
  · rw [naivePowMod_eq]; rfl
  · rw [naivePowMod_eq, binPowMod_eq]

/-- C7: running the recovery step twice from the same state yields the same
recovered value both times, and the state read by the recovery computation is
not mutated between the calls. -/
theorem recovery_idempotent (s : DemoState) :
    (runShorAttack s).2 = s ∧
    (runShorAttack ((runShorAttack s).2)).1 = (runShorAttack s).1 :=
  ⟨rfl, rfl⟩

/-- C8: every session key the program can draw — any integer between 20 and
80 inclusive, the bounds of `random.randint(20, 80)` — is non-negative and
strictly below n = 391, so the encryption precondition
0 ≤ session_key < n always holds. -/
theorem session_key_precondition (k : Nat) (h1 : sessionKeyMin ≤ k)
    (h2 : k ≤ sessionKeyMax) : 0 ≤ k ∧ k < n :=
  ⟨Nat.zero_le k, lt_of_le_of_lt h2 (by decide)⟩

/-- Witness for C8 at session key 50. -/
theorem session_key_precondition_witness :
    0 ≤ 50 ∧ 50 < n :=
  session_key_precondition 50 (by decide) (by decide)

/-- C9: all eight entities p, q, n, phi, e, d, session_key, encrypted_key are
derived once at demo start (`initState`), and after the recovery step runs,
every one of them is unchanged from its setup value. -/
theorem recovery_frame (session_key : Nat) :
    (runShorAttack (initState session_key)).2.p = (initState session_key).p ∧
    (runShorAttack (initState session_key)).2.q = (initState session_key).q ∧
    (runShorAttack (initState session_key)).2.n = (initState session_key).n ∧
    (runShorAttack (initState session_key)).2.phi = (initState session_key).phi ∧
    (runShorAttack (initState session_key)).2.e = (initState session_key).e ∧
    (runShorAttack (initState session_key)).2.d = (initState session_key).d ∧
    (runShorAttack (initState session_key)).2.session_key
      = (initState session_key).session_key ∧
    (runShorAttack (initState session_key)).2.encrypted_key
      = (initState session_key).encrypted_key ∧
    (runShorAttack (initState session_key)).2 = initState session_key :=
  ⟨rfl, rfl, rfl, rfl, rfl, rfl, rfl, rfl, rfl⟩

/-- C10: the computational pipeline is deterministic given the session key:
two runs whose randomness source supplies the same session-key value produce
the same cipher and the same recovered key. -/
theorem pipeline_deterministic (sk₁ sk₂ : Nat) (h : sk₁ = sk₂) :
    encrypted_key sk₁ = encrypted_key sk₂ ∧
    recovered_key sk₁ = recovered_key sk₂ := by
  subst h
  exact ⟨rfl, rfl⟩

/-- Witness for C10 at session key 50. -/
theorem pipeline_deterministic_witness :
    encrypted_key 50 = encrypted_key 50 ∧ recovered_key 50 = recovered_key 50 :=
  pipeline_deterministic 50 50 rfl

end Shor2
